import Mathlib

/-!
Shallow embedding of the recipe API application (`app/recipe/views.py` and the
`core` data model it operates on).  Views are modelled as pure functions from
an authenticated principal, the request parameters and the database state to
an HTTP status plus a response payload and (for writes) an updated state.
Framework behaviour that the views configure declaratively is modelled by its
documented semantics: `permission_classes = [IsAuthenticated]` rejects an
anonymous request with 401 before the handler runs, and the generic mixins
resolve a detail object by primary key inside `get_queryset()` and answer 404
when it is not there.
-/

namespace RecipeApp

/-- Requesting principal: either anonymous or an authenticated user id. -/
inductive Auth where
  | anon : Auth
  | user (uid : Nat) : Auth
deriving DecidableEq, Repr

/-- HTTP statuses the API produces. -/
inductive HttpStatus where
  | s200 | s201 | s204 | s400 | s401 | s404
deriving DecidableEq, Repr

/-- Modelled from the spec: `core/models.py` is not under `src/`; its `Tag`
and `Ingredient` models, as used by `views.py` and the tests, are rows with a
primary key, an owning user and a name.  Both models have the same shape, so
one record type serves for both. -/
structure Attr where
  id : Nat
  user : Nat
  name : String
deriving DecidableEq, Repr

/-- A table of tags or of ingredients together with the next primary key the
database will assign. -/
structure AttrStore where
  attrs : List Attr
  nextId : Nat
deriving DecidableEq, Repr

/-- Modelled from the spec: `core/models.py` is not under `src/`; its `Recipe`
model, as used by `views.py` and the tests, carries the owning user, the
scalar fields posted by the tests and many-to-many links to tags and
ingredients (stored here as lists of primary keys). -/
structure Recipe where
  id : Nat
  user : Nat
  title : String
  timeMinutes : Nat
  price : Int
  description : String
  link : String
  tagIds : List Nat
  ingredientIds : List Nat
deriving DecidableEq, Repr

/-- The whole persistent state: the recipe table and the two attribute
tables. -/
structure Db where
  recipes : List Recipe
  nextRecipeId : Nat
  tagStore : AttrStore
  ingredientStore : AttrStore
deriving DecidableEq, Repr

/-- Insert `x` into a list that is already sorted by `key` in descending
order, keeping it sorted. -/
def insertDesc {α β : Type} [LinearOrder β] (key : α → β) (x : α) :
    List α → List α
  | [] => [x]
  | y :: ys => if key y ≤ key x then x :: y :: ys else y :: insertDesc key x ys

/-- Sort a list by `key` in descending order (the meaning of the ORM
`order_by` with a `-`-prefixed column). -/
def sortDesc {α β : Type} [LinearOrder β] (key : α → β) : List α → List α
  | [] => []
  | x :: xs => insertDesc key x (sortDesc key xs)

/-- `RecipeViewSet.get_queryset` (views.py lines 24-26): the queryset is
filtered on `user=self.request.user` and ordered by the `-id` column.
The request query parameters are not consulted. -/
def recipeQueryset (uid : Nat) (db : Db) : List Recipe :=
  sortDesc Recipe.id (db.recipes.filter (fun r => r.user == uid))

/-- `BaseRecipeAttrViewSet.get_queryset` (views.py lines 48-50): the
queryset is filtered on `user=self.request.user` and ordered by the `-name`
column.  The request query parameters are not consulted. -/
def attrQueryset (uid : Nat) (s : AttrStore) : List Attr :=
  sortDesc (fun a => a.name.data) (s.attrs.filter (fun a => a.user == uid))

/-- Query parameters a recipe-list request may carry.  `views.py` never reads
them. -/
structure RecipeListParams where
  tags : Option String
  ingredients : Option String
deriving DecidableEq, Repr

/-- GET on the recipe list route.  `permission_classes = [IsAuthenticated]`
answers 401 to an anonymous request; otherwise the response body is the
queryset.  The `tags` and `ingredients` query parameters are ignored because
`get_queryset` (views.py lines 24-26) only filters by user. -/
def recipeListView (auth : Auth) (_params : RecipeListParams) (db : Db) :
    HttpStatus × List Recipe :=
  match auth with
  | .anon => (.s401, [])
  | .user uid => (.s200, recipeQueryset uid db)

/-- Detail-object lookup of the generic mixins: search the view queryset for
the primary key from the URL. -/
def findRecipe (uid : Nat) (rid : Nat) (db : Db) : Option Recipe :=
  (recipeQueryset uid db).find? (fun r => r.id == rid)

/-- GET on the recipe detail route: 401 when anonymous, 404 when the primary
key is not in the queryset, otherwise the serialized recipe. -/
def recipeDetailView (auth : Auth) (rid : Nat) (db : Db) :
    HttpStatus × Option Recipe :=
  match auth with
  | .anon => (.s401, none)
  | .user uid =>
    match findRecipe uid rid db with
    | none => (.s404, none)
    | some r => (.s200, some r)

/-- DELETE on the recipe detail route: 401 when anonymous, 404 when the
primary key is not in the queryset, otherwise the row is deleted with 204. -/
def recipeDestroyView (auth : Auth) (rid : Nat) (db : Db) : HttpStatus × Db :=
  match auth with
  | .anon => (.s401, db)
  | .user uid =>
    match findRecipe uid rid db with
    | none => (.s404, db)
    | some _ =>
      (.s204, { db with recipes := db.recipes.filter (fun r => r.id != rid) })

/-- Link a primary key to a recipe the way the ORM many-to-many `add` does:
adding an already linked key is a no-op. -/
def addLink (linked : List Nat) (i : Nat) : List Nat :=
  if linked.contains i then linked else linked ++ [i]

/-- Modelled from the spec: `recipe/serializers.py` is not under `src/`.  Per
the spec, recipe writes perform "nested-object upsert-or-create for
tags/ingredients": for each posted name, a tag/ingredient of the requesting
user with that name is reused when it exists and created (owned by the
requesting user, with the next primary key) when it does not, and is then
linked to the recipe.  `linked` accumulates the linked primary keys. -/
def getOrCreateAttrs (uid : Nat) :
    List String → AttrStore → List Nat → AttrStore × List Nat
  | [], s, linked => (s, linked)
  | n :: ns, s, linked =>
    match s.attrs.find? (fun a => a.user == uid && a.name == n) with
    | some a => getOrCreateAttrs uid ns s (addLink linked a.id)
    | none =>
      getOrCreateAttrs uid ns
        ⟨s.attrs ++ [⟨s.nextId, uid, n⟩], s.nextId + 1⟩
        (addLink linked s.nextId)

/-- Dispatch on an optional nested list in a recipe write: an absent list
leaves the table alone and keeps the current links (for a create the current
links are empty); a present list clears the links and rebuilds them through
upsert-or-create. -/
def upsertLinks (uid : Nat) (names? : Option (List String)) (s : AttrStore)
    (current : List Nat) : AttrStore × List Nat :=
  match names? with
  | none => (s, current)
  | some names => getOrCreateAttrs uid names s []

/-- Body of a recipe create request.  `tags` and `ingredients`, when present,
are lists of names. -/
structure RecipePayload where
  title : String
  timeMinutes : Nat
  price : Int
  description : String
  link : String
  tags : Option (List String)
  ingredients : Option (List String)
deriving DecidableEq, Repr

/-- POST on the recipe list route.  `perform_create` (views.py lines 35-37)
saves the serializer with `user=self.request.user`, so the new row is owned
by the requester.  The nested tag and ingredient lists go through the
upsert-or-create helper (modelled from the spec, see `getOrCreateAttrs`). -/
def recipeCreateView (auth : Auth) (p : RecipePayload) (db : Db) :
    HttpStatus × Option Nat × Db :=
  match auth with
  | .anon => (.s401, none, db)
  | .user uid =>
    let tr := upsertLinks uid p.tags db.tagStore []
    let ir := upsertLinks uid p.ingredients db.ingredientStore []
    let r : Recipe :=
      ⟨db.nextRecipeId, uid, p.title, p.timeMinutes, p.price,
        p.description, p.link, tr.2, ir.2⟩
    (.s201, some db.nextRecipeId,
      { db with
          recipes := db.recipes ++ [r]
          nextRecipeId := db.nextRecipeId + 1
          tagStore := tr.1
          ingredientStore := ir.1 })

/-- Body of a recipe PATCH request: absent fields are left unchanged.  The
`user` field can appear in a payload but the serializer declares it
read-only (modelled from the spec and `test_unable_to_update_user`), so it is
never applied. -/
structure RecipePatch where
  title : Option String
  timeMinutes : Option Nat
  price : Option Int
  description : Option String
  link : Option String
  user : Option Nat
  tags : Option (List String)
  ingredients : Option (List String)
deriving DecidableEq, Repr

/-- Modelled from the spec: the serializer update pops the nested lists; when
a `tags` (or `ingredients`) list is present the existing links are cleared
and the upsert-or-create helper rebuilds them from the payload names, and the
remaining writable scalar fields are overwritten when present.  The `user`
field of the payload is read-only and ignored. -/
def applyPatch (uid : Nat) (p : RecipePatch) (r : Recipe) (db : Db) :
    Recipe × Db :=
  let tr := upsertLinks uid p.tags db.tagStore r.tagIds
  let ir := upsertLinks uid p.ingredients db.ingredientStore r.ingredientIds
  (⟨r.id, r.user, p.title.getD r.title, p.timeMinutes.getD r.timeMinutes,
      p.price.getD r.price, p.description.getD r.description,
      p.link.getD r.link, tr.2, ir.2⟩,
    { db with tagStore := tr.1, ingredientStore := ir.1 })

/-- PATCH on the recipe detail route: 401 when anonymous, 404 when the
primary key is not in the queryset, otherwise the patch is applied to the
row. -/
def recipePatchView (auth : Auth) (rid : Nat) (p : RecipePatch) (db : Db) :
    HttpStatus × Db :=
  match auth with
  | .anon => (.s401, db)
  | .user uid =>
    match findRecipe uid rid db with
    | none => (.s404, db)
    | some r =>
      let rd := applyPatch uid p r db
      (.s200,
        { rd.2 with
            recipes := rd.2.recipes.map (fun x => if x.id == rid then rd.1 else x) })

/-- Detail-object lookup of the attribute viewsets: search the view queryset
for the primary key from the URL. -/
def findAttr (uid : Nat) (aid : Nat) (s : AttrStore) : Option Attr :=
  (attrQueryset uid s).find? (fun a => a.id == aid)

/-- GET on the tag or ingredient list route (`TagViewSet` /
`IngredientViewSet` via `BaseRecipeAttrViewSet`): 401 when anonymous,
otherwise the queryset.  The `assigned_only` query parameter is ignored
because `get_queryset` (views.py lines 48-50) only filters by user. -/
def attrListView (auth : Auth) (_assignedOnly : Option String) (s : AttrStore) :
    HttpStatus × List Attr :=
  match auth with
  | .anon => (.s401, [])
  | .user uid => (.s200, attrQueryset uid s)

/-- PATCH on the tag or ingredient detail route (`UpdateModelMixin`): 401
when anonymous, 404 when the primary key is not in the queryset, otherwise
the name is overwritten when present in the payload. -/
def attrPatchView (auth : Auth) (aid : Nat) (newName : Option String)
    (s : AttrStore) : HttpStatus × AttrStore :=
  match auth with
  | .anon => (.s401, s)
  | .user uid =>
    match findAttr uid aid s with
    | none => (.s404, s)
    | some a =>
      let a' : Attr := ⟨a.id, a.user, newName.getD a.name⟩
      (.s200,
        { s with attrs := s.attrs.map (fun x => if x.id == aid then a' else x) })

/-- DELETE on the tag or ingredient detail route (`DestroyModelMixin`): 401
when anonymous, 404 when the primary key is not in the queryset, otherwise
the row is deleted with 204. -/
def attrDestroyView (auth : Auth) (aid : Nat) (s : AttrStore) :
    HttpStatus × AttrStore :=
  match auth with
  | .anon => (.s401, s)
  | .user uid =>
    match findAttr uid aid s with
    | none => (.s404, s)
    | some _ => (.s204, { s with attrs := s.attrs.filter (fun a => a.id != aid) })

/-- The set of actions `RecipeViewSet` defines: the five provided by
`ModelViewSet` (with the partial-update variant) and no extra `@action`
method anywhere in `views.py`. -/
def recipeViewSetActions : List String :=
  ["list", "create", "retrieve", "update", "partial_update", "destroy"]

/-- The router registers a `recipes/{id}/upload-image/` URL exactly when the
viewset defines an extra action named `upload_image`. -/
def uploadImageRouteRegistered : Bool :=
  recipeViewSetActions.contains "upload_image"

/-- Database invariants the ORM maintains for an attribute table: primary
keys stay below the autoincrement counter, primary keys are unique, and a
user never owns two rows with the same name (the tables are only written
through `get_or_create`). -/
def AttrStore.WF (s : AttrStore) : Prop :=
  (∀ a ∈ s.attrs, a.id < s.nextId) ∧
  (s.attrs.map Attr.id).Nodup ∧
  (∀ a ∈ s.attrs, ∀ b ∈ s.attrs, a.user = b.user → a.name = b.name → a = b)

instance (s : AttrStore) : Decidable s.WF := by
  unfold AttrStore.WF; infer_instance

/-- Database invariants the ORM maintains for the recipe table: primary keys
stay below the autoincrement counter and are unique. -/
def Db.recipesWF (db : Db) : Prop :=
  (∀ r ∈ db.recipes, r.id < db.nextRecipeId) ∧ (db.recipes.map Recipe.id).Nodup

instance (db : Db) : Decidable db.recipesWF := by
  unfold Db.recipesWF; infer_instance

theorem mem_insertDesc {α β : Type} [LinearOrder β] (key : α → β) (x a : α)
    (l : List α) : a ∈ insertDesc key x l ↔ a = x ∨ a ∈ l := by
  induction l with
  | nil => simp [insertDesc]
  | cons y ys ih =>
    by_cases h : key y ≤ key x
    · simp [insertDesc, h]
    · simp [insertDesc, h, ih]
      tauto

theorem mem_sortDesc {α β : Type} [LinearOrder β] (key : α → β) (a : α)
    (l : List α) : a ∈ sortDesc key l ↔ a ∈ l := by
  induction l with
  | nil => simp [sortDesc]
  | cons x xs ih => simp [sortDesc, mem_insertDesc, ih]

theorem pairwise_insertDesc {α β : Type} [LinearOrder β] (key : α → β)
    (x : α) (l : List α) (h : l.Pairwise (fun a b => key b ≤ key a)) :
    (insertDesc key x l).Pairwise (fun a b => key b ≤ key a) := by
  induction l with
  | nil => simp [insertDesc]
  | cons y ys ih =>
    rcases List.pairwise_cons.mp h with ⟨hy, hys⟩
    by_cases hle : key y ≤ key x
    · simp only [insertDesc, if_pos hle]
      refine List.pairwise_cons.mpr ⟨?_, h⟩
      intro b hb
      rcases List.mem_cons.mp hb with rfl | hb
      · exact hle
      · exact le_trans (hy b hb) hle
    · simp only [insertDesc, if_neg hle]
      refine List.pairwise_cons.mpr ⟨?_, ih hys⟩
      intro b hb
      rcases (mem_insertDesc key x b ys).mp hb with rfl | hb
      · exact le_of_not_le hle
      · exact hy b hb

theorem pairwise_sortDesc {α β : Type} [LinearOrder β] (key : α → β)
    (l : List α) : (sortDesc key l).Pairwise (fun a b => key b ≤ key a) := by
  induction l with
  | nil => simp [sortDesc]
  | cons x xs ih => exact pairwise_insertDesc key x _ ih

/-- `find?` returns the element when it matches and every match in the list
is that element. -/
theorem find?_eq_some_of_unique {α : Type} (p : α → Bool) (x : α)
    (l : List α) (hmem : x ∈ l) (hpx : p x = true)
    (huniq : ∀ y ∈ l, p y = true → y = x) : l.find? p = some x := by
  induction l with
  | nil => cases hmem
  | cons z zs ih =>
    by_cases hz : p z = true
    · have hzx : z = x := huniq z (List.mem_cons_self z zs) hz
      subst hzx
      simp [List.find?, hz]
    · have hz' : p z = false := by simpa using hz
      simp only [List.find?, hz']
      rcases List.mem_cons.mp hmem with rfl | hmem
      · exact absurd hpx hz
      · exact ih hmem fun y hy => huniq y (List.mem_cons_of_mem z hy)

theorem mem_recipeQueryset (uid : Nat) (db : Db) (r : Recipe) :
    r ∈ recipeQueryset uid db ↔ r ∈ db.recipes ∧ r.user = uid := by
  unfold recipeQueryset
  rw [mem_sortDesc, List.mem_filter]
  simp

theorem mem_attrQueryset (uid : Nat) (s : AttrStore) (a : Attr) :
    a ∈ attrQueryset uid s ↔ a ∈ s.attrs ∧ a.user = uid := by
  unfold attrQueryset
  rw [mem_sortDesc, List.mem_filter]
  simp

/-- With unique primary keys, looking up the id of a row the user owns finds
exactly that row. -/
theorem findRecipe_eq_some (uid : Nat) (db : Db) (r : Recipe)
    (hnd : (db.recipes.map Recipe.id).Nodup)
    (hmem : r ∈ db.recipes) (huser : r.user = uid) :
    findRecipe uid r.id db = some r := by
  apply find?_eq_some_of_unique
  · exact (mem_recipeQueryset uid db r).mpr ⟨hmem, huser⟩
  · simp
  · intro y hy hpy
    have hy' := (mem_recipeQueryset uid db y).mp hy
    have hid : y.id = r.id := by simpa using hpy
    exact List.inj_on_of_nodup_map hnd hy'.1 hmem hid

/-- With unique primary keys, looking up the id of a row owned by a
different user finds nothing. -/
theorem findRecipe_eq_none (uid : Nat) (db : Db) (r : Recipe)
    (hnd : (db.recipes.map Recipe.id).Nodup)
    (hmem : r ∈ db.recipes) (huser : r.user ≠ uid) :
    findRecipe uid r.id db = none := by
  rw [findRecipe, List.find?_eq_none]
  intro y hy hpy
  have hy' := (mem_recipeQueryset uid db y).mp hy
  have hid : y.id = r.id := by simpa using hpy
  have : y = r := List.inj_on_of_nodup_map hnd hy'.1 hmem hid
  exact huser (this ▸ hy'.2)

/-- With unique primary keys, looking up the id of an attribute row the user
owns finds exactly that row. -/
theorem findAttr_eq_some (uid : Nat) (s : AttrStore) (a : Attr)
    (hnd : (s.attrs.map Attr.id).Nodup)
    (hmem : a ∈ s.attrs) (huser : a.user = uid) :
    findAttr uid a.id s = some a := by
  apply find?_eq_some_of_unique
  · exact (mem_attrQueryset uid s a).mpr ⟨hmem, huser⟩
  · simp
  · intro y hy hpy
    have hy' := (mem_attrQueryset uid s y).mp hy
    have hid : y.id = a.id := by simpa using hpy
    exact List.inj_on_of_nodup_map hnd hy'.1 hmem hid

/-- With unique primary keys, looking up the id of an attribute row owned by
a different user finds nothing. -/
theorem findAttr_eq_none (uid : Nat) (s : AttrStore) (a : Attr)
    (hnd : (s.attrs.map Attr.id).Nodup)
    (hmem : a ∈ s.attrs) (huser : a.user ≠ uid) :
    findAttr uid a.id s = none := by
  rw [findAttr, List.find?_eq_none]
  intro y hy hpy
  have hy' := (mem_attrQueryset uid s y).mp hy
  have hid : y.id = a.id := by simpa using hpy
  have : y = a := List.inj_on_of_nodup_map hnd hy'.1 hmem hid
  exact huser (this ▸ hy'.2)

theorem mem_addLink (linked : List Nat) (i j : Nat) :
    j ∈ addLink linked i ↔ j ∈ linked ∨ j = i := by
  by_cases h : i ∈ linked
  · simp only [addLink]
    rw [if_pos (by simpa using h)]
    constructor
    · exact Or.inl
    · rintro (hj | rfl)
      · exact hj
      · exact h
  · simp only [addLink]
    rw [if_neg (by simpa using h)]
    simp

theorem self_mem_addLink (linked : List Nat) (i : Nat) : i ∈ addLink linked i :=
  (mem_addLink linked i i).mpr (Or.inr rfl)

theorem nodup_addLink (linked : List Nat) (i : Nat) (h : linked.Nodup) :
    (addLink linked i).Nodup := by
  by_cases hc : i ∈ linked
  · simp only [addLink]
    rw [if_pos (by simpa using hc)]
    exact h
  · simp only [addLink]
    rw [if_neg (by simpa using hc)]
    refine List.Nodup.append h (List.nodup_singleton i) ?_
    intro a ha hb
    rcases List.mem_singleton.mp hb with rfl
    exact hc ha

theorem goc_attrs_mono (uid : Nat) (names : List String) :
    ∀ (s : AttrStore) (linked : List Nat) (a : Attr), a ∈ s.attrs →
      a ∈ (getOrCreateAttrs uid names s linked).1.attrs := by
  induction names with
  | nil => intro s linked a ha; simpa [getOrCreateAttrs] using ha
  | cons n ns ih =>
    intro s linked a ha
    cases hfind : s.attrs.find? (fun b => b.user == uid && b.name == n) with
    | some b =>
      simp only [getOrCreateAttrs, hfind]
      exact ih _ _ a ha
    | none =>
      simp only [getOrCreateAttrs, hfind]
      exact ih _ _ a (by simp [ha])

theorem goc_linked_mono (uid : Nat) (names : List String) :
    ∀ (s : AttrStore) (linked : List Nat) (i : Nat), i ∈ linked →
      i ∈ (getOrCreateAttrs uid names s linked).2 := by
  induction names with
  | nil => intro s linked i hi; simpa [getOrCreateAttrs] using hi
  | cons n ns ih =>
    intro s linked i hi
    cases hfind : s.attrs.find? (fun b => b.user == uid && b.name == n) with
    | some b =>
      simp only [getOrCreateAttrs, hfind]
      exact ih _ _ i ((mem_addLink linked b.id i).mpr (Or.inl hi))
    | none =>
      simp only [getOrCreateAttrs, hfind]
      exact ih _ _ i ((mem_addLink linked s.nextId i).mpr (Or.inl hi))

theorem goc_linked_nodup (uid : Nat) (names : List String) :
    ∀ (s : AttrStore) (linked : List Nat), linked.Nodup →
      (getOrCreateAttrs uid names s linked).2.Nodup := by
  induction names with
  | nil => intro s linked h; simpa [getOrCreateAttrs] using h
  | cons n ns ih =>
    intro s linked h
    cases hfind : s.attrs.find? (fun b => b.user == uid && b.name == n) with
    | some b =>
      simp only [getOrCreateAttrs, hfind]
      exact ih _ _ (nodup_addLink linked b.id h)
    | none =>
      simp only [getOrCreateAttrs, hfind]
      exact ih _ _ (nodup_addLink linked s.nextId h)

/-- Number of rows of `s` owned by `uid` with name `n`. -/
def attrCount (uid : Nat) (n : String) (s : AttrStore) : Nat :=
  (s.attrs.filter (fun a => a.user == uid && a.name == n)).length

theorem attrCount_pos_of_find (uid : Nat) (m : String) (s : AttrStore)
    (b : Attr)
    (h : s.attrs.find? (fun a => a.user == uid && a.name == m) = some b) :
    0 < attrCount uid m s := by
  have hb := List.find?_some h
  have hmem := List.mem_of_find?_eq_some h
  have : b ∈ s.attrs.filter (fun a => a.user == uid && a.name == m) :=
    List.mem_filter.mpr ⟨hmem, hb⟩
  exact List.length_pos_of_mem this

theorem attrCount_eq_zero_of_find_none (uid : Nat) (m : String)
    (s : AttrStore)
    (h : s.attrs.find? (fun a => a.user == uid && a.name == m) = none) :
    attrCount uid m s = 0 := by
  unfold attrCount
  rw [List.length_eq_zero, List.filter_eq_nil_iff]
  exact fun a ha => by simpa using List.find?_eq_none.mp h a ha

/-- Creating a fresh row for a name the user does not yet own preserves the
table invariants. -/
theorem WF_create_step (uid : Nat) (m : String) (s : AttrStore)
    (hWF : s.WF)
    (hfind : s.attrs.find? (fun b => b.user == uid && b.name == m) = none) :
    AttrStore.WF ⟨s.attrs ++ [⟨s.nextId, uid, m⟩], s.nextId + 1⟩ := by
  obtain ⟨h1, h2, h3⟩ := hWF
  refine ⟨?_, ?_, ?_⟩
  · intro a ha
    rcases List.mem_append.mp ha with ha | ha
    · exact Nat.lt_succ_of_lt (h1 a ha)
    · rcases List.mem_singleton.mp ha with rfl
      exact Nat.lt_succ_self _
  · rw [List.map_append]
    refine List.Nodup.append h2 (by simp) ?_
    intro x hx hy
    rcases List.mem_map.mp hx with ⟨a, ha, rfl⟩
    have : a.id = s.nextId := by simpa using hy
    exact absurd (h1 a ha) (by omega)
  · intro a ha b hb hu hn
    rcases List.mem_append.mp ha with ha | ha <;>
      rcases List.mem_append.mp hb with hb | hb
    · exact h3 a ha b hb hu hn
    · rcases List.mem_singleton.mp hb with rfl
      exact absurd (List.find?_eq_none.mp hfind a ha) (by simp [hu, hn])
    · rcases List.mem_singleton.mp ha with rfl
      exact absurd (List.find?_eq_none.mp hfind b hb)
        (by simp [hu.symm, hn.symm])
    · rw [List.mem_singleton.mp ha, List.mem_singleton.mp hb]

/-- Upsert-or-create preserves the table invariants. -/
theorem goc_WF (uid : Nat) (names : List String) :
    ∀ (s : AttrStore) (linked : List Nat), s.WF →
      (getOrCreateAttrs uid names s linked).1.WF := by
  induction names with
  | nil => intro s linked h; simpa [getOrCreateAttrs] using h
  | cons m ns ih =>
    intro s linked h
    cases hfind : s.attrs.find? (fun b => b.user == uid && b.name == m) with
    | some b =>
      simp only [getOrCreateAttrs, hfind]
      exact ih _ _ h
    | none =>
      simp only [getOrCreateAttrs, hfind]
      exact ih _ _ (WF_create_step uid m s h hfind)

/-- How upsert-or-create changes per-name row counts: a posted name the user
does not own yet ends up with exactly one row, every other count is
unchanged.  In particular no duplicate row is ever created for an existing
name. -/
theorem goc_count (uid : Nat) (names : List String) :
    ∀ (s : AttrStore) (linked : List Nat) (n : String),
      attrCount uid n (getOrCreateAttrs uid names s linked).1 =
        if n ∈ names ∧ attrCount uid n s = 0 then 1
        else attrCount uid n s := by
  induction names with
  | nil => intro s linked n; simp [getOrCreateAttrs]
  | cons m ns ih =>
    intro s linked n
    cases hfind : s.attrs.find? (fun b => b.user == uid && b.name == m) with
    | some b =>
      simp only [getOrCreateAttrs, hfind]
      rw [ih]
      have hpos := attrCount_pos_of_find uid m s b hfind
      by_cases hn : n ∈ ns ∧ attrCount uid n s = 0
      · rw [if_pos hn, if_pos ⟨List.mem_cons_of_mem m hn.1, hn.2⟩]
      · rw [if_neg hn, if_neg ?_]
        rintro ⟨hmem, hzero⟩
        rcases List.mem_cons.mp hmem with rfl | hmem
        · omega
        · exact hn ⟨hmem, hzero⟩
    | none =>
      simp only [getOrCreateAttrs, hfind]
      rw [ih]
      have hzero := attrCount_eq_zero_of_find_none uid m s hfind
      by_cases hnm : n = m
      · subst hnm
        have hone : attrCount uid n
            ⟨s.attrs ++ [⟨s.nextId, uid, n⟩], s.nextId + 1⟩ = 1 := by
          unfold attrCount at hzero ⊢
          rw [List.filter_append, List.length_append, hzero]
          simp
        rw [hone, if_neg (by omega), if_pos ⟨List.mem_cons_self n ns, hzero⟩]
      · have hsame : attrCount uid n
            ⟨s.attrs ++ [⟨s.nextId, uid, m⟩], s.nextId + 1⟩ =
            attrCount uid n s := by
          unfold attrCount
          rw [List.filter_append, List.length_append]
          simp [Ne.symm hnm]
        rw [hsame]
        have : (n ∈ m :: ns) ↔ (n ∈ ns) := by
          constructor
          · intro h; rcases List.mem_cons.mp h with rfl | h
            · exact absurd rfl hnm
            · exact h
          · exact List.mem_cons_of_mem m
        by_cases hn : n ∈ ns ∧ attrCount uid n s = 0
        · rw [if_pos hn, if_pos ⟨this.mpr hn.1, hn.2⟩]
        · rw [if_neg hn, if_neg (fun hc => hn ⟨this.mp hc.1, hc.2⟩)]

/-- Every posted name ends up linked to a row of the requesting user with
that name. -/
theorem goc_link_exists (uid : Nat) (names : List String) :
    ∀ (s : AttrStore) (linked : List Nat) (n : String), n ∈ names →
      ∃ a, a ∈ (getOrCreateAttrs uid names s linked).1.attrs ∧
        a.user = uid ∧ a.name = n ∧
        a.id ∈ (getOrCreateAttrs uid names s linked).2 := by
  induction names with
  | nil => intro s linked n hn; cases hn
  | cons m ns ih =>
    intro s linked n hn
    cases hfind : s.attrs.find? (fun b => b.user == uid && b.name == m) with
    | some b =>
      simp only [getOrCreateAttrs, hfind]
      rcases List.mem_cons.mp hn with rfl | hn
      · have hb : b.user = uid ∧ b.name = n := by
          simpa using List.find?_some hfind
        exact ⟨b, goc_attrs_mono uid ns _ _ b (List.mem_of_find?_eq_some hfind),
          hb.1, hb.2,
          goc_linked_mono uid ns _ _ b.id (self_mem_addLink linked b.id)⟩
      · exact ih _ _ n hn
    | none =>
      simp only [getOrCreateAttrs, hfind]
      rcases List.mem_cons.mp hn with rfl | hn
      · exact ⟨⟨s.nextId, uid, n⟩,
          goc_attrs_mono uid ns _ _ _ (List.mem_append_right _ (by simp)),
          rfl, rfl,
          goc_linked_mono uid ns _ _ s.nextId (self_mem_addLink linked s.nextId)⟩
      · exact ih _ _ n hn

/-- Every key the upsert links (beyond the accumulator) belongs to a row of
the requesting user whose name was posted. -/
theorem goc_linked_sound (uid : Nat) (names : List String) :
    ∀ (s : AttrStore) (linked : List Nat) (i : Nat),
      i ∈ (getOrCreateAttrs uid names s linked).2 →
      i ∈ linked ∨ ∃ a, a ∈ (getOrCreateAttrs uid names s linked).1.attrs ∧
        a.id = i ∧ a.user = uid ∧ a.name ∈ names := by
  induction names with
  | nil =>
    intro s linked i hi
    exact Or.inl (by simpa [getOrCreateAttrs] using hi)
  | cons m ns ih =>
    intro s linked i hi
    cases hfind : s.attrs.find? (fun b => b.user == uid && b.name == m) with
    | some b =>
      simp only [getOrCreateAttrs, hfind] at hi ⊢
      rcases ih _ _ i hi with hl | ⟨a, ha, rfl, hu, hname⟩
      · rcases (mem_addLink linked b.id i).mp hl with h | rfl
        · exact Or.inl h
        · have hb : b.user = uid ∧ b.name = m := by
            simpa using List.find?_some hfind
          exact Or.inr ⟨b,
            goc_attrs_mono uid ns _ _ b (List.mem_of_find?_eq_some hfind),
            rfl, hb.1, hb.2 ▸ List.mem_cons_self m ns⟩
      · exact Or.inr ⟨a, ha, rfl, hu, List.mem_cons_of_mem m hname⟩
    | none =>
      simp only [getOrCreateAttrs, hfind] at hi ⊢
      rcases ih _ _ i hi with hl | ⟨a, ha, rfl, hu, hname⟩
      · rcases (mem_addLink linked s.nextId i).mp hl with h | rfl
        · exact Or.inl h
        · exact Or.inr ⟨⟨s.nextId, uid, m⟩,
            goc_attrs_mono uid ns _ _ _ (List.mem_append_right _ (by simp)),
            rfl, rfl, List.mem_cons_self m ns⟩
      · exact Or.inr ⟨a, ha, rfl, hu, List.mem_cons_of_mem m hname⟩

/-- An existing row of the user whose name is posted gets its own key linked
(it is reused, not replaced). -/
theorem goc_reuse (uid : Nat) (names : List String) :
    ∀ (s : AttrStore) (linked : List Nat) (t : Attr), s.WF → t ∈ s.attrs →
      t.user = uid → t.name ∈ names →
      t.id ∈ (getOrCreateAttrs uid names s linked).2 := by
  induction names with
  | nil => intro s linked t _ _ _ h; cases h
  | cons m ns ih =>
    intro s linked t hWF hmem huser hname
    cases hfind : s.attrs.find? (fun b => b.user == uid && b.name == m) with
    | some b =>
      simp only [getOrCreateAttrs, hfind]
      rcases List.mem_cons.mp hname with hnm | hname
      · have hb : b.user = uid ∧ b.name = m := by
          simpa using List.find?_some hfind
        have hbt : b = t :=
          hWF.2.2 b (List.mem_of_find?_eq_some hfind) t hmem
            (by rw [hb.1, huser]) (by rw [hb.2, hnm])
        exact goc_linked_mono uid ns _ _ t.id
          (hbt ▸ self_mem_addLink linked b.id)
      · exact ih _ _ t hWF hmem huser hname
    | none =>
      simp only [getOrCreateAttrs, hfind]
      rcases List.mem_cons.mp hname with hnm | hname
      · exact absurd (List.find?_eq_none.mp hfind t hmem)
          (by simp [huser, hnm])
      · exact ih _ _ t (WF_create_step uid m s hWF hfind)
          (List.mem_append_left _ hmem) huser hname

/-- Claim C6: every request to the recipe, tag or ingredient endpoints made
without authentication is rejected with HTTP 401 Unauthorized, and no stored
object is created, modified or deleted by such a request (the database state
in every returned pair is the input state). -/
theorem claim6_auth_required (params : RecipeListParams) (db : Db)
    (rid aid : Nat) (p : RecipePayload) (q : RecipePatch)
    (assignedOnly newName : Option String) (s : AttrStore) :
    recipeListView .anon params db = (.s401, []) ∧
    recipeDetailView .anon rid db = (.s401, none) ∧
    recipeCreateView .anon p db = (.s401, none, db) ∧
    recipePatchView .anon rid q db = (.s401, db) ∧
    recipeDestroyView .anon rid db = (.s401, db) ∧
    attrListView .anon assignedOnly s = (.s401, []) ∧
    attrPatchView .anon aid newName s = (.s401, s) ∧
    attrDestroyView .anon aid s = (.s401, s) :=
  ⟨rfl, rfl, rfl, rfl, rfl, rfl, rfl, rfl⟩

/-- Claim C10: every recipe-list response is ordered by descending recipe id
and every tag-list and ingredient-list response is ordered by descending
name. -/
theorem claim10_list_ordering (uid : Nat) (params : RecipeListParams)
    (db : Db) (assignedOnly : Option String) :
    (recipeListView (.user uid) params db).2.Pairwise
      (fun a b => b.id ≤ a.id) ∧
    (attrListView (.user uid) assignedOnly db.tagStore).2.Pairwise
      (fun a b => b.name ≤ a.name) ∧
    (attrListView (.user uid) assignedOnly db.ingredientStore).2.Pairwise
      (fun a b => b.name ≤ a.name) := by
  refine ⟨pairwise_sortDesc Recipe.id _, ?_, ?_⟩ <;>
  · refine List.Pairwise.imp ?_
      (pairwise_sortDesc (fun a : Attr => a.name.data) _)
    intro a b h
    exact String.le_iff_toList_le.mpr h

/-- The recipes, tags and database of `test_filter_by_tags`: three recipes of
user 1, a Vegan tag on the first, a Vegetarian tag on the second, none on the
third. -/
def c4recipe1 : Recipe := ⟨1, 1, "Recipe1", 22, 1050, "d", "l", [10], []⟩

def c4recipe2 : Recipe := ⟨2, 1, "Recipe2", 22, 1050, "d", "l", [11], []⟩

def c4recipe3 : Recipe := ⟨3, 1, "Recipe3", 22, 1050, "d", "l", [], []⟩

def c4db : Db :=
  ⟨[c4recipe1, c4recipe2, c4recipe3], 4,
    ⟨[⟨10, 1, "Vegan"⟩, ⟨11, 1, "Vegetarian"⟩], 12⟩, ⟨[], 1⟩⟩

/-- Claim C4 fails on the code: `get_queryset` never reads the `tags` /
`ingredients` query parameters, so the list request of `test_filter_by_tags`
(tags `10,11`) answers 200 but still contains the recipe linked to none of
the listed tags, and the response is identical to the one without any
filter. -/
theorem claim4_counterexample :
    (recipeListView (.user 1) ⟨some "10,11", none⟩ c4db).1 = .s200 ∧
    c4recipe3 ∈ (recipeListView (.user 1) ⟨some "10,11", none⟩ c4db).2 ∧
    c4recipe3.tagIds = [] ∧
    (recipeListView (.user 1) ⟨some "10,11", none⟩ c4db).2 =
      (recipeListView (.user 1) ⟨none, none⟩ c4db).2 := by
  decide

/-- The ingredients and database of
`test_filter_ingredients_assigned_to_recipes`: Apple is assigned to the one
recipe of user 1, Turkey is assigned to no recipe. -/
def c5apple : Attr := ⟨1, 1, "Apple"⟩

def c5turkey : Attr := ⟨2, 1, "Turkey"⟩

def c5db : Db :=
  ⟨[⟨1, 1, "Sample title", 5, 599, "", "", [], [1]⟩], 2,
    ⟨[], 1⟩, ⟨[c5apple, c5turkey], 3⟩⟩

/-- Claim C5 fails on the code: `get_queryset` of the attribute viewsets
never reads the `assigned_only` query parameter, so the ingredient-list
request of `test_filter_ingredients_assigned_to_recipes` answers 200 but
still contains Turkey, which is assigned to no recipe. -/
theorem claim5_counterexample :
    (attrListView (.user 1) (some "1") c5db.ingredientStore).1 = .s200 ∧
    c5turkey ∈ (attrListView (.user 1) (some "1") c5db.ingredientStore).2 ∧
    (∀ r ∈ c5db.recipes, c5turkey.id ∉ r.ingredientIds) := by
  decide

/-- Claim C8 fails on the code: `views.py` defines no `upload_image` action
on `RecipeViewSet`, so the router registers no
`recipes/{id}/upload-image/` URL and the upload request of
`test_upload_image` cannot be answered 200. -/
theorem claim8_no_upload_action : uploadImageRouteRegistered = false := by
  decide

/-- Claim C1: for an authenticated user, list responses only contain objects
the user owns, and a detail, update or delete request that targets a recipe,
tag or ingredient owned by a different user is answered 404 with the
database left unchanged.  (The attribute viewsets expose no retrieve action,
so "detail" reads concern recipes.) -/
theorem claim1_user_scoping (uid : Nat) (params : RecipeListParams)
    (assignedOnly newName : Option String) (db : Db) (q : RecipePatch)
    (r : Recipe) (t g : Attr)
    (hnd : (db.recipes.map Recipe.id).Nodup)
    (hndT : (db.tagStore.attrs.map Attr.id).Nodup)
    (hndI : (db.ingredientStore.attrs.map Attr.id).Nodup)
    (hr : r ∈ db.recipes) (hru : r.user ≠ uid)
    (ht : t ∈ db.tagStore.attrs) (htu : t.user ≠ uid)
    (hg : g ∈ db.ingredientStore.attrs) (hgu : g.user ≠ uid) :
    (∀ x ∈ (recipeListView (.user uid) params db).2, x.user = uid) ∧
    (∀ x ∈ (attrListView (.user uid) assignedOnly db.tagStore).2,
      x.user = uid) ∧
    (∀ x ∈ (attrListView (.user uid) assignedOnly db.ingredientStore).2,
      x.user = uid) ∧
    recipeDetailView (.user uid) r.id db = (.s404, none) ∧
    recipePatchView (.user uid) r.id q db = (.s404, db) ∧
    recipeDestroyView (.user uid) r.id db = (.s404, db) ∧
    attrPatchView (.user uid) t.id newName db.tagStore =
      (.s404, db.tagStore) ∧
    attrDestroyView (.user uid) t.id db.tagStore = (.s404, db.tagStore) ∧
    attrPatchView (.user uid) g.id newName db.ingredientStore =
      (.s404, db.ingredientStore) ∧
    attrDestroyView (.user uid) g.id db.ingredientStore =
      (.s404, db.ingredientStore) := by
  refine ⟨?_, ?_, ?_, ?_, ?_, ?_, ?_, ?_, ?_, ?_⟩
  · intro x hx
    exact ((mem_recipeQueryset uid db x).mp hx).2
  · intro x hx
    exact ((mem_attrQueryset uid db.tagStore x).mp hx).2
  · intro x hx
    exact ((mem_attrQueryset uid db.ingredientStore x).mp hx).2
  · simp [recipeDetailView, findRecipe_eq_none uid db r hnd hr hru]
  · simp [recipePatchView, findRecipe_eq_none uid db r hnd hr hru]
  · simp [recipeDestroyView, findRecipe_eq_none uid db r hnd hr hru]
  · simp [attrPatchView, findAttr_eq_none uid db.tagStore t hndT ht htu]
  · simp [attrDestroyView, findAttr_eq_none uid db.tagStore t hndT ht htu]
  · simp [attrPatchView, findAttr_eq_none uid db.ingredientStore g hndI hg hgu]
  · simp [attrDestroyView,
      findAttr_eq_none uid db.ingredientStore g hndI hg hgu]

/-- A patch body leaving every field absent. -/
def noPatch : RecipePatch := ⟨none, none, none, none, none, none, none, none⟩

/-- A database holding one recipe, one tag and one ingredient, all owned by
user 2. -/
def c1recipe : Recipe := ⟨1, 2, "Other recipe", 5, 100, "", "", [], []⟩

def c1tag : Attr := ⟨1, 2, "OtherTag"⟩

def c1ing : Attr := ⟨1, 2, "OtherIng"⟩

def c1db : Db := ⟨[c1recipe], 2, ⟨[c1tag], 2⟩, ⟨[c1ing], 2⟩⟩

/-- Concrete instance of the user-scoping theorem: user 1 cannot see or
touch the objects of user 2. -/
theorem claim1_user_scoping_witness :
    (∀ x ∈ (recipeListView (.user 1) ⟨none, none⟩ c1db).2, x.user = 1) ∧
    (∀ x ∈ (attrListView (.user 1) none c1db.tagStore).2, x.user = 1) ∧
    (∀ x ∈ (attrListView (.user 1) none c1db.ingredientStore).2,
      x.user = 1) ∧
    recipeDetailView (.user 1) c1recipe.id c1db = (.s404, none) ∧
    recipePatchView (.user 1) c1recipe.id noPatch c1db = (.s404, c1db) ∧
    recipeDestroyView (.user 1) c1recipe.id c1db = (.s404, c1db) ∧
    attrPatchView (.user 1) c1tag.id none c1db.tagStore =
      (.s404, c1db.tagStore) ∧
    attrDestroyView (.user 1) c1tag.id c1db.tagStore =
      (.s404, c1db.tagStore) ∧
    attrPatchView (.user 1) c1ing.id none c1db.ingredientStore =
      (.s404, c1db.ingredientStore) ∧
    attrDestroyView (.user 1) c1ing.id c1db.ingredientStore =
      (.s404, c1db.ingredientStore) :=
  claim1_user_scoping 1 ⟨none, none⟩ none none c1db noPatch c1recipe c1tag
    c1ing (by decide) (by decide) (by decide) (by decide) (by decide)
    (by decide) (by decide) (by decide) (by decide)

/-- What an authenticated create does, written out: a 201 response carrying
the fresh primary key, the new row appended with the requester as owner and
the upserted tag and ingredient links. -/
theorem recipeCreateView_eq (uid : Nat) (p : RecipePayload) (db : Db) :
    recipeCreateView (.user uid) p db =
      (.s201, some db.nextRecipeId,
        ⟨db.recipes ++
            [⟨db.nextRecipeId, uid, p.title, p.timeMinutes, p.price,
              p.description, p.link,
              (upsertLinks uid p.tags db.tagStore []).2,
              (upsertLinks uid p.ingredients db.ingredientStore []).2⟩],
          db.nextRecipeId + 1,
          (upsertLinks uid p.tags db.tagStore []).1,
          (upsertLinks uid p.ingredients db.ingredientStore []).1⟩) := rfl

/-- Appending a row carrying the autoincrement key keeps the primary keys
unique. -/
theorem recipes_nodup_snoc (db : Db) (hWF : db.recipesWF) (r : Recipe)
    (hid : r.id = db.nextRecipeId) :
    ((db.recipes ++ [r]).map Recipe.id).Nodup := by
  rw [List.map_append]
  refine List.Nodup.append hWF.2 (by simp) ?_
  intro x hx hy
  rcases List.mem_map.mp hx with ⟨a, ha, rfl⟩
  have h1 : a.id = r.id := by simpa using hy
  have h2 := hWF.1 a ha
  omega

/-- A primary key held by no row is found for no user. -/
theorem findRecipe_eq_none_of_absent (uid rid : Nat) (db : Db)
    (h : ∀ x ∈ db.recipes, x.id ≠ rid) : findRecipe uid rid db = none := by
  rw [findRecipe, List.find?_eq_none]
  intro y hy hpy
  exact h y ((mem_recipeQueryset uid db y).mp hy).1 (by simpa using hpy)

/-- After a row with the autoincrement key is appended, its detail read
returns it, deleting it answers 204 and removes exactly it, and a further
detail read answers 404. -/
theorem postCreate_spec (uid : Nat) (db : Db) (hWF : db.recipesWF)
    (r : Recipe) (hid : r.id = db.nextRecipeId) (huser : r.user = uid)
    (ts is2 : AttrStore) :
    recipeDetailView (.user uid) r.id
        ⟨db.recipes ++ [r], db.nextRecipeId + 1, ts, is2⟩ = (.s200, some r) ∧
    (recipeDestroyView (.user uid) r.id
        ⟨db.recipes ++ [r], db.nextRecipeId + 1, ts, is2⟩).1 = .s204 ∧
    (∀ x ∈ (recipeDestroyView (.user uid) r.id
        ⟨db.recipes ++ [r], db.nextRecipeId + 1, ts, is2⟩).2.recipes,
      x.id ≠ r.id) ∧
    recipeDetailView (.user uid) r.id
      (recipeDestroyView (.user uid) r.id
        ⟨db.recipes ++ [r], db.nextRecipeId + 1, ts, is2⟩).2 =
      (.s404, none) := by
  have hnd : ((db.recipes ++ [r]).map Recipe.id).Nodup :=
    recipes_nodup_snoc db hWF r hid
  have hfind : findRecipe uid r.id
      ⟨db.recipes ++ [r], db.nextRecipeId + 1, ts, is2⟩ = some r :=
    findRecipe_eq_some uid _ r hnd (List.mem_append_right _ (by simp)) huser
  have habs : ∀ x ∈ (db.recipes ++ [r]).filter (fun x => x.id != r.id),
      x.id ≠ r.id := by
    intro x hx
    simpa using (List.mem_filter.mp hx).2
  refine ⟨?_, ?_, ?_, ?_⟩
  · simp [recipeDetailView, hfind]
  · simp [recipeDestroyView, hfind]
  · simp only [recipeDestroyView, hfind]
    exact habs
  · simp only [recipeDestroyView, hfind]
    have habs2 : ∀ x ∈ db.recipes.filter (fun x => x.id != r.id),
        x.id ≠ r.id := by
      intro x hx
      simpa using (List.mem_filter.mp hx).2
    have hnone := findRecipe_eq_none_of_absent uid r.id
      ⟨db.recipes.filter (fun x => x.id != r.id),
        db.nextRecipeId + 1, ts, is2⟩ habs2
    have hnone' := findRecipe_eq_none_of_absent uid r.id
      ⟨(db.recipes ++ [r]).filter (fun x => x.id != r.id),
        db.nextRecipeId + 1, ts, is2⟩ habs
    simp [recipeDetailView, hnone, hnone']

/-- Claim C7: creating a recipe answers 201; reading the detail of the new
primary key returns the posted field values with the requester as owner;
deleting it answers 204 and afterwards the key is on no stored row and the
detail read answers 404. -/
theorem claim7_crud_roundtrip (uid : Nat) (p : RecipePayload) (db : Db)
    (hWF : db.recipesWF) :
    (recipeCreateView (.user uid) p db).1 = .s201 ∧
    ∃ rid r,
      (recipeCreateView (.user uid) p db).2.1 = some rid ∧
      recipeDetailView (.user uid) rid
        (recipeCreateView (.user uid) p db).2.2 = (.s200, some r) ∧
      r.user = uid ∧ r.title = p.title ∧ r.timeMinutes = p.timeMinutes ∧
      r.price = p.price ∧ r.description = p.description ∧ r.link = p.link ∧
      (recipeDestroyView (.user uid) rid
        (recipeCreateView (.user uid) p db).2.2).1 = .s204 ∧
      (∀ x ∈ (recipeDestroyView (.user uid) rid
        (recipeCreateView (.user uid) p db).2.2).2.recipes, x.id ≠ rid) ∧
      recipeDetailView (.user uid) rid
        (recipeDestroyView (.user uid) rid
          (recipeCreateView (.user uid) p db).2.2).2 = (.s404, none) := by
  rw [recipeCreateView_eq]
  obtain ⟨h1, h2, h3, h4⟩ := postCreate_spec uid db hWF
    ⟨db.nextRecipeId, uid, p.title, p.timeMinutes, p.price, p.description,
      p.link, (upsertLinks uid p.tags db.tagStore []).2,
      (upsertLinks uid p.ingredients db.ingredientStore []).2⟩ rfl rfl
    (upsertLinks uid p.tags db.tagStore []).1
    (upsertLinks uid p.ingredients db.ingredientStore []).1
  exact ⟨rfl, db.nextRecipeId, _, rfl, h1, rfl, rfl, rfl, rfl, rfl, rfl,
    h2, h3, h4⟩

/-- An empty database and the create payload of `test_create_recipe`. -/
def c7db : Db := ⟨[], 1, ⟨[], 1⟩, ⟨[], 1⟩⟩

def c7payload : RecipePayload := ⟨"Sample Recipe", 30, 1099, "", "", none, none⟩

/-- Concrete instance of the round-trip theorem on an empty database. -/
theorem claim7_crud_roundtrip_witness :
    (recipeCreateView (.user 1) c7payload c7db).1 = .s201 ∧
    ∃ rid r,
      (recipeCreateView (.user 1) c7payload c7db).2.1 = some rid ∧
      recipeDetailView (.user 1) rid
        (recipeCreateView (.user 1) c7payload c7db).2.2 = (.s200, some r) ∧
      r.user = 1 ∧ r.title = c7payload.title ∧
      r.timeMinutes = c7payload.timeMinutes ∧
      r.price = c7payload.price ∧ r.description = c7payload.description ∧
      r.link = c7payload.link ∧
      (recipeDestroyView (.user 1) rid
        (recipeCreateView (.user 1) c7payload c7db).2.2).1 = .s204 ∧
      (∀ x ∈ (recipeDestroyView (.user 1) rid
        (recipeCreateView (.user 1) c7payload c7db).2.2).2.recipes,
        x.id ≠ rid) ∧
      recipeDetailView (.user 1) rid
        (recipeDestroyView (.user 1) rid
          (recipeCreateView (.user 1) c7payload c7db).2.2).2 =
        (.s404, none) :=
  claim7_crud_roundtrip 1 c7payload c7db (by decide)

/-- Every row of the table after an upsert is either an original row or a
created row of the requesting user carrying one of the posted names. -/
theorem goc_attrs_sound (uid : Nat) (names : List String) :
    ∀ (s : AttrStore) (linked : List Nat) (a : Attr),
      a ∈ (getOrCreateAttrs uid names s linked).1.attrs →
      a ∈ s.attrs ∨ (a.user = uid ∧ a.name ∈ names) := by
  induction names with
  | nil =>
    intro s linked a ha
    exact Or.inl (by simpa [getOrCreateAttrs] using ha)
  | cons m ns ih =>
    intro s linked a ha
    cases hfind : s.attrs.find? (fun b => b.user == uid && b.name == m) with
    | some b =>
      simp only [getOrCreateAttrs, hfind] at ha
      rcases ih _ _ a ha with h | ⟨h1, h2⟩
      · exact Or.inl h
      · exact Or.inr ⟨h1, List.mem_cons_of_mem m h2⟩
    | none =>
      simp only [getOrCreateAttrs, hfind] at ha
      rcases ih _ _ a ha with h | ⟨h1, h2⟩
      · rcases List.mem_append.mp h with h | h
        · exact Or.inl h
        · rcases List.mem_singleton.mp h with rfl
          exact Or.inr ⟨rfl, List.mem_cons_self m ns⟩
      · exact Or.inr ⟨h1, List.mem_cons_of_mem m h2⟩

/-- Completeness of the links: any row of the updated table owned by the
requesting user and carrying a posted name has its key linked. -/
theorem goc_complete (uid : Nat) (names : List String) :
    ∀ (s : AttrStore) (linked : List Nat) (t : Attr), s.WF →
      t ∈ (getOrCreateAttrs uid names s linked).1.attrs →
      t.user = uid → t.name ∈ names →
      t.id ∈ (getOrCreateAttrs uid names s linked).2 := by
  induction names with
  | nil => intro s linked t _ _ _ hn; cases hn
  | cons m ns ih =>
    intro s linked t hWF ht hu hn
    cases hfind : s.attrs.find? (fun b => b.user == uid && b.name == m) with
    | some b =>
      simp only [getOrCreateAttrs, hfind] at ht ⊢
      by_cases hts : t.name ∈ ns
      · exact ih _ _ t hWF ht hu hts
      · have htm : t.name = m := by
          rcases List.mem_cons.mp hn with h | h
          · exact h
          · exact absurd h hts
        have hts' : t ∈ s.attrs := by
          rcases goc_attrs_sound uid ns s _ t ht with h | ⟨_, h⟩
          · exact h
          · exact absurd h (htm ▸ hts)
        have hb : b.user = uid ∧ b.name = m := by
          simpa using List.find?_some hfind
        have hbt : b = t :=
          hWF.2.2 b (List.mem_of_find?_eq_some hfind) t hts'
            (by rw [hb.1, hu]) (by rw [hb.2, htm])
        exact goc_linked_mono uid ns _ _ t.id
          (hbt ▸ self_mem_addLink linked b.id)
    | none =>
      simp only [getOrCreateAttrs, hfind] at ht ⊢
      have hWF1 := WF_create_step uid m s hWF hfind
      by_cases hts : t.name ∈ ns
      · exact ih _ _ t hWF1 ht hu hts
      · have htm : t.name = m := by
          rcases List.mem_cons.mp hn with h | h
          · exact h
          · exact absurd h hts
        have hts' : t ∈ s.attrs ++ [⟨s.nextId, uid, m⟩] := by
          rcases goc_attrs_sound uid ns _ _ t ht with h | ⟨_, h⟩
          · exact h
          · exact absurd h (htm ▸ hts)
        rcases List.mem_append.mp hts' with h | h
        · exact absurd (List.find?_eq_none.mp hfind t h) (by simp [hu, htm])
        · rcases List.mem_singleton.mp h with rfl
          exact goc_linked_mono uid ns _ _ _
            (self_mem_addLink linked s.nextId)

/-- Specification of nested upsert-or-create, in the words of the spec: a
posted name the user already owns is reused (the row survives, its key is
linked, its per-name row count does not change, so no duplicate appears); a
posted name the user does not own yet gets a new linked row owned by the
user; and each posted name is linked to exactly one row. -/
def UpsertOk (uid : Nat) (names : List String) (old new : AttrStore)
    (linked : List Nat) : Prop :=
  (∀ t, t ∈ old.attrs → t.user = uid → t.name ∈ names →
    t ∈ new.attrs ∧ t.id ∈ linked ∧
      attrCount uid t.name new = attrCount uid t.name old) ∧
  (∀ n ∈ names, attrCount uid n old = 0 →
    ∃ t, t ∈ new.attrs ∧ t.user = uid ∧ t.name = n ∧ t.id ∈ linked) ∧
  (∀ n ∈ names, ∃! i, i ∈ linked ∧
    ∃ t, t ∈ new.attrs ∧ t.id = i ∧ t.user = uid ∧ t.name = n)

/-- Upsert-or-create satisfies its specification on a well-formed table. -/
theorem goc_UpsertOk (uid : Nat) (names : List String) (s : AttrStore)
    (hWF : s.WF) :
    UpsertOk uid names s (getOrCreateAttrs uid names s []).1
      (getOrCreateAttrs uid names s []).2 := by
  refine ⟨?_, ?_, ?_⟩
  · intro t ht hu hn
    have hpos : 0 < attrCount uid t.name s :=
      List.length_pos_of_mem (List.mem_filter.mpr ⟨ht, by simp [hu]⟩)
    refine ⟨goc_attrs_mono uid names s [] t ht,
      goc_reuse uid names s [] t hWF ht hu hn, ?_⟩
    rw [goc_count uid names s [] t.name, if_neg]
    rintro ⟨_, h0⟩
    omega
  · intro n hn _
    obtain ⟨a, ha, hau, han, hal⟩ := goc_link_exists uid names s [] n hn
    exact ⟨a, ha, hau, han, hal⟩
  · intro n hn
    obtain ⟨a, ha, hau, han, hal⟩ := goc_link_exists uid names s [] n hn
    refine ⟨a.id, ⟨hal, a, ha, rfl, hau, han⟩, ?_⟩
    rintro i ⟨_, t, htm, rfl, htu, htn⟩
    have hWF' := goc_WF uid names s [] hWF
    have heq : t = a :=
      hWF'.2.2 t htm a ha (htu.trans hau.symm) (htn.trans han.symm)
    rw [heq]

/-- What an authenticated patch of an owned recipe does, written out: the
row keeps its key and owner, absent scalar fields keep their value, present
ones are overwritten, and the nested lists go through `upsertLinks`. -/
theorem recipePatchView_eq (uid : Nat) (q : RecipePatch) (db : Db)
    (r : Recipe) (hfind : findRecipe uid r.id db = some r) :
    recipePatchView (.user uid) r.id q db =
      (.s200,
        ⟨db.recipes.map (fun x => if x.id == r.id then
            ⟨r.id, r.user, q.title.getD r.title,
              q.timeMinutes.getD r.timeMinutes, q.price.getD r.price,
              q.description.getD r.description, q.link.getD r.link,
              (upsertLinks uid q.tags db.tagStore r.tagIds).2,
              (upsertLinks uid q.ingredients db.ingredientStore
                r.ingredientIds).2⟩
          else x),
          db.nextRecipeId,
          (upsertLinks uid q.tags db.tagStore r.tagIds).1,
          (upsertLinks uid q.ingredients db.ingredientStore
            r.ingredientIds).1⟩) := by
  simp only [recipePatchView, applyPatch, hfind]

/-- Replacing the row holding a key by a row with the same key leaves the
key column unchanged. -/
theorem map_update_ids (l : List Recipe) (rid : Nat) (r' : Recipe)
    (h : r'.id = rid) :
    (l.map (fun x => if x.id == rid then r' else x)).map Recipe.id =
      l.map Recipe.id := by
  rw [List.map_map]
  apply List.map_congr_left
  intro x hx
  by_cases hxr : x.id = rid
  · simp [Function.comp, hxr, h]
  · simp [Function.comp, hxr]

/-- After replacing an owned row by a row with the same key and owner, a
detail lookup of that key finds the replacement. -/
theorem findRecipe_map_update (uid rid n : Nat) (recipes : List Recipe)
    (ts is2 : AttrStore) (r r' : Recipe)
    (hnd : (recipes.map Recipe.id).Nodup) (hr : r ∈ recipes)
    (hrid : r.id = rid) (hid : r'.id = rid) (hu : r'.user = uid) :
    findRecipe uid rid
      ⟨recipes.map (fun x => if x.id == rid then r' else x), n, ts, is2⟩ =
      some r' := by
  have hmem : r' ∈ recipes.map (fun x => if x.id == rid then r' else x) := by
    have h1 := List.mem_map_of_mem (fun x => if x.id == rid then r' else x) hr
    simpa [hrid] using h1
  have hnd' : ((recipes.map
      (fun x => if x.id == rid then r' else x)).map Recipe.id).Nodup := by
    rw [map_update_ids recipes rid r' hid]
    exact hnd
  have := findRecipe_eq_some uid
    ⟨recipes.map (fun x => if x.id == rid then r' else x), n, ts, is2⟩
    r' hnd' hmem hu
  rw [hid] at this
  exact this

/-- Claim C9: the owner of a recipe is set from the requester at creation
(see `recipeCreateView_eq`) and no patch changes it: even when the payload
carries a `user` field, the stored row keeps its owner while the writable
fields are still applied. -/
theorem claim9_owner_immutable (uid v : Nat) (q : RecipePatch) (db : Db)
    (r : Recipe) (hWF : db.recipesWF) (hr : r ∈ db.recipes)
    (hu : r.user = uid) (hq : q.user = some v) :
    (recipePatchView (.user uid) r.id q db).1 = .s200 ∧
    ∃ r',
      recipeDetailView (.user uid) r.id
        (recipePatchView (.user uid) r.id q db).2 = (.s200, some r') ∧
      r'.user = r.user ∧ r'.id = r.id ∧
      r'.title = q.title.getD r.title ∧
      r'.timeMinutes = q.timeMinutes.getD r.timeMinutes ∧
      r'.price = q.price.getD r.price ∧
      r'.description = q.description.getD r.description ∧
      r'.link = q.link.getD r.link := by
  have hfind := findRecipe_eq_some uid db r hWF.2 hr hu
  rw [recipePatchView_eq uid q db r hfind]
  have hdetail := findRecipe_map_update uid r.id db.nextRecipeId db.recipes
    (upsertLinks uid q.tags db.tagStore r.tagIds).1
    (upsertLinks uid q.ingredients db.ingredientStore r.ingredientIds).1
    r
    ⟨r.id, r.user, q.title.getD r.title, q.timeMinutes.getD r.timeMinutes,
      q.price.getD r.price, q.description.getD r.description,
      q.link.getD r.link,
      (upsertLinks uid q.tags db.tagStore r.tagIds).2,
      (upsertLinks uid q.ingredients db.ingredientStore r.ingredientIds).2⟩
    hWF.2 hr rfl rfl hu
  exact ⟨rfl,
    ⟨r.id, r.user, q.title.getD r.title, q.timeMinutes.getD r.timeMinutes,
      q.price.getD r.price, q.description.getD r.description,
      q.link.getD r.link,
      (upsertLinks uid q.tags db.tagStore r.tagIds).2,
      (upsertLinks uid q.ingredients db.ingredientStore r.ingredientIds).2⟩,
    by simp only [recipeDetailView, hdetail], rfl, rfl, rfl, rfl, rfl, rfl,
    rfl⟩

/-- A one-recipe database of user 1 and the payload of
`test_unable_to_update_user`: a patch carrying a new title and a foreign
`user` value. -/
def c9recipe : Recipe := ⟨1, 1, "Sample recipe title", 22, 1050, "d", "l", [], []⟩

def c9db : Db := ⟨[c9recipe], 2, ⟨[], 1⟩, ⟨[], 1⟩⟩

def c9patch : RecipePatch :=
  ⟨some "New recipe title", none, none, none, none, some 2, none, none⟩

/-- Concrete instance of the owner-immutability theorem: patching with
`user := 2` keeps the row owned by user 1 and still applies the new
title. -/
theorem claim9_owner_immutable_witness :
    (recipePatchView (.user 1) c9recipe.id c9patch c9db).1 = .s200 ∧
    ∃ r',
      recipeDetailView (.user 1) c9recipe.id
        (recipePatchView (.user 1) c9recipe.id c9patch c9db).2 =
        (.s200, some r') ∧
      r'.user = c9recipe.user ∧ r'.id = c9recipe.id ∧
      r'.title = c9patch.title.getD c9recipe.title ∧
      r'.timeMinutes = c9patch.timeMinutes.getD c9recipe.timeMinutes ∧
      r'.price = c9patch.price.getD c9recipe.price ∧
      r'.description = c9patch.description.getD c9recipe.description ∧
      r'.link = c9patch.link.getD c9recipe.link :=
  claim9_owner_immutable 1 2 c9patch c9db c9recipe (by decide) (by decide)
    (by decide) (by decide)

/-- Claim C2 (create half plus the patch half below, one conjunction): a
recipe create whose payload carries tag and ingredient name lists reuses
every name the user already owns (same row, linked, count unchanged),
creates a row owned by the user for every name not owned yet, and links the
new recipe to exactly one row per distinct posted name. -/
theorem claim2_upsert_or_create (uid : Nat) (p : RecipePayload)
    (q : RecipePatch) (db : Db) (tn inn : List String) (r0 : Recipe)
    (hT : db.tagStore.WF) (hI : db.ingredientStore.WF)
    (hWF : db.recipesWF) (hr0 : r0 ∈ db.recipes) (hu0 : r0.user = uid)
    (hpt : p.tags = some tn) (hpi : p.ingredients = some inn)
    (hqt : q.tags = some tn) (hqi : q.ingredients = some inn) :
    ((recipeCreateView (.user uid) p db).1 = .s201 ∧
      ∃ r, r ∈ (recipeCreateView (.user uid) p db).2.2.recipes ∧
        (recipeCreateView (.user uid) p db).2.1 = some r.id ∧
        UpsertOk uid tn db.tagStore
          (recipeCreateView (.user uid) p db).2.2.tagStore r.tagIds ∧
        UpsertOk uid inn db.ingredientStore
          (recipeCreateView (.user uid) p db).2.2.ingredientStore
          r.ingredientIds) ∧
    ((recipePatchView (.user uid) r0.id q db).1 = .s200 ∧
      ∃ r', r' ∈ (recipePatchView (.user uid) r0.id q db).2.recipes ∧
        r'.id = r0.id ∧
        UpsertOk uid tn db.tagStore
          (recipePatchView (.user uid) r0.id q db).2.tagStore r'.tagIds ∧
        UpsertOk uid inn db.ingredientStore
          (recipePatchView (.user uid) r0.id q db).2.ingredientStore
          r'.ingredientIds) := by
  constructor
  · rw [recipeCreateView_eq]
    refine ⟨rfl,
      ⟨db.nextRecipeId, uid, p.title, p.timeMinutes, p.price, p.description,
        p.link, (upsertLinks uid p.tags db.tagStore []).2,
        (upsertLinks uid p.ingredients db.ingredientStore []).2⟩,
      List.mem_append_right _ (by simp), rfl, ?_, ?_⟩
    · rw [hpt]
      exact goc_UpsertOk uid tn db.tagStore hT
    · rw [hpi]
      exact goc_UpsertOk uid inn db.ingredientStore hI
  · have hfind := findRecipe_eq_some uid db r0 hWF.2 hr0 hu0
    rw [recipePatchView_eq uid q db r0 hfind]
    refine ⟨rfl,
      ⟨r0.id, r0.user, q.title.getD r0.title,
        q.timeMinutes.getD r0.timeMinutes, q.price.getD r0.price,
        q.description.getD r0.description, q.link.getD r0.link,
        (upsertLinks uid q.tags db.tagStore r0.tagIds).2,
        (upsertLinks uid q.ingredients db.ingredientStore
          r0.ingredientIds).2⟩, ?_, rfl, ?_, ?_⟩
    · have h1 := List.mem_map_of_mem
        (fun x => if x.id == r0.id then
          (⟨r0.id, r0.user, q.title.getD r0.title,
            q.timeMinutes.getD r0.timeMinutes, q.price.getD r0.price,
            q.description.getD r0.description, q.link.getD r0.link,
            (upsertLinks uid q.tags db.tagStore r0.tagIds).2,
            (upsertLinks uid q.ingredients db.ingredientStore
              r0.ingredientIds).2⟩ : Recipe)
          else x) hr0
      simpa using h1
    · rw [hqt]
      exact goc_UpsertOk uid tn db.tagStore hT
    · rw [hqi]
      exact goc_UpsertOk uid inn db.ingredientStore hI

/-- The database and payloads of `test_create_recipe_with_existing_tags` /
`test_create_recipe_with_existing_ingredients`: user 1 already owns the tag
Dinner and the ingredient Chicken, and posts the name lists
[Dinner, Breakfast] and [Chicken, Rice]. -/
def c2recipe : Recipe := ⟨1, 1, "Base", 5, 100, "", "", [], []⟩

def c2db : Db := ⟨[c2recipe], 2, ⟨[⟨1, 1, "Dinner"⟩], 2⟩,
  ⟨[⟨1, 1, "Chicken"⟩], 2⟩⟩

def c2payload : RecipePayload :=
  ⟨"Dinner title", 40, 5099, "", "", some ["Dinner", "Breakfast"],
    some ["Chicken", "Rice"]⟩

def c2patch : RecipePatch :=
  ⟨none, none, none, none, none, none, some ["Dinner", "Breakfast"],
    some ["Chicken", "Rice"]⟩

/-- Concrete instance of the upsert-or-create theorem on `c2db`. -/
theorem claim2_upsert_or_create_witness :
    (((recipeCreateView (.user 1) c2payload c2db).1 = .s201 ∧
      ∃ r, r ∈ (recipeCreateView (.user 1) c2payload c2db).2.2.recipes ∧
        (recipeCreateView (.user 1) c2payload c2db).2.1 = some r.id ∧
        UpsertOk 1 ["Dinner", "Breakfast"] c2db.tagStore
          (recipeCreateView (.user 1) c2payload c2db).2.2.tagStore
          r.tagIds ∧
        UpsertOk 1 ["Chicken", "Rice"] c2db.ingredientStore
          (recipeCreateView (.user 1) c2payload c2db).2.2.ingredientStore
          r.ingredientIds) ∧
    ((recipePatchView (.user 1) c2recipe.id c2patch c2db).1 = .s200 ∧
      ∃ r', r' ∈ (recipePatchView (.user 1) c2recipe.id c2patch
          c2db).2.recipes ∧
        r'.id = c2recipe.id ∧
        UpsertOk 1 ["Dinner", "Breakfast"] c2db.tagStore
          (recipePatchView (.user 1) c2recipe.id c2patch c2db).2.tagStore
          r'.tagIds ∧
        UpsertOk 1 ["Chicken", "Rice"] c2db.ingredientStore
          (recipePatchView (.user 1) c2recipe.id c2patch
            c2db).2.ingredientStore r'.ingredientIds)) :=
  claim2_upsert_or_create 1 c2payload c2patch c2db ["Dinner", "Breakfast"]
    ["Chicken", "Rice"] c2recipe (by decide) (by decide) (by decide)
    (by decide) (by decide) (by decide) (by decide) (by decide) (by decide)

/-- Claim C3: a patch whose payload carries a `tags` (and `ingredients`)
list leaves the recipe assigned to exactly the rows named in the payload:
a key is linked afterwards precisely when it belongs to a row of the user
whose name is in the list, so previously assigned rows not named are
unlinked, and an empty list clears the assignment. -/
theorem claim3_assignment_replacement (uid : Nat) (q : RecipePatch)
    (db : Db) (r : Recipe) (tn inn : List String)
    (hWF : db.recipesWF) (hT : db.tagStore.WF) (hI : db.ingredientStore.WF)
    (hr : r ∈ db.recipes) (hu : r.user = uid)
    (hqt : q.tags = some tn) (hqi : q.ingredients = some inn) :
    (recipePatchView (.user uid) r.id q db).1 = .s200 ∧
    ∃ r',
      recipeDetailView (.user uid) r.id
        (recipePatchView (.user uid) r.id q db).2 = (.s200, some r') ∧
      (∀ i, i ∈ r'.tagIds ↔
        ∃ t, t ∈ (recipePatchView (.user uid) r.id q db).2.tagStore.attrs ∧
          t.id = i ∧ t.user = uid ∧ t.name ∈ tn) ∧
      (∀ i, i ∈ r'.ingredientIds ↔
        ∃ g, g ∈ (recipePatchView (.user uid) r.id
            q db).2.ingredientStore.attrs ∧
          g.id = i ∧ g.user = uid ∧ g.name ∈ inn) ∧
      (tn = [] → r'.tagIds = []) ∧ (inn = [] → r'.ingredientIds = []) := by
  have hfind := findRecipe_eq_some uid db r hWF.2 hr hu
  rw [recipePatchView_eq uid q db r hfind, hqt, hqi]
  have hdetail := findRecipe_map_update uid r.id db.nextRecipeId db.recipes
    (upsertLinks uid (some tn) db.tagStore r.tagIds).1
    (upsertLinks uid (some inn) db.ingredientStore r.ingredientIds).1
    r
    ⟨r.id, r.user, q.title.getD r.title, q.timeMinutes.getD r.timeMinutes,
      q.price.getD r.price, q.description.getD r.description,
      q.link.getD r.link,
      (upsertLinks uid (some tn) db.tagStore r.tagIds).2,
      (upsertLinks uid (some inn) db.ingredientStore r.ingredientIds).2⟩
    hWF.2 hr rfl rfl hu
  refine ⟨rfl,
    ⟨r.id, r.user, q.title.getD r.title, q.timeMinutes.getD r.timeMinutes,
      q.price.getD r.price, q.description.getD r.description,
      q.link.getD r.link,
      (upsertLinks uid (some tn) db.tagStore r.tagIds).2,
      (upsertLinks uid (some inn) db.ingredientStore r.ingredientIds).2⟩,
    by simp only [recipeDetailView, hdetail], ?_, ?_, ?_, ?_⟩
  · intro i
    constructor
    · intro hi
      rcases goc_linked_sound uid tn db.tagStore [] i hi with h | ⟨t, ht⟩
      · cases h
      · exact ⟨t, ht.1, ht.2.1, ht.2.2.1, ht.2.2.2⟩
    · rintro ⟨t, htm, rfl, htu, htn⟩
      exact goc_complete uid tn db.tagStore [] t hT htm htu htn
  · intro i
    constructor
    · intro hi
      rcases goc_linked_sound uid inn db.ingredientStore [] i hi with
        h | ⟨g, hg⟩
      · cases h
      · exact ⟨g, hg.1, hg.2.1, hg.2.2.1, hg.2.2.2⟩
    · rintro ⟨g, hgm, rfl, hgu, hgn⟩
      exact goc_complete uid inn db.ingredientStore [] g hI hgm hgu hgn
  · rintro rfl
    rfl
  · rintro rfl
    rfl

/-- The database and payload of `test_update_recipe_assign_tag` combined
with `test_clear_recipe_ingredient`: the recipe of user 1 is assigned the
Breakfast tag and the Rice ingredient; the patch posts the tag list [Lunch]
and an empty ingredient list. -/
def c3recipe : Recipe := ⟨1, 1, "Sample title", 22, 1050, "d", "l", [1], [1]⟩

def c3db : Db := ⟨[c3recipe], 2,
  ⟨[⟨1, 1, "Breakfast"⟩, ⟨2, 1, "Lunch"⟩], 3⟩, ⟨[⟨1, 1, "Rice"⟩], 2⟩⟩

def c3patch : RecipePatch :=
  ⟨none, none, none, none, none, none, some ["Lunch"], some []⟩

/-- Concrete instance of the assignment-replacement theorem on `c3db`. -/
theorem claim3_assignment_replacement_witness :
    (recipePatchView (.user 1) c3recipe.id c3patch c3db).1 = .s200 ∧
    ∃ r',
      recipeDetailView (.user 1) c3recipe.id
        (recipePatchView (.user 1) c3recipe.id c3patch c3db).2 =
        (.s200, some r') ∧
      (∀ i, i ∈ r'.tagIds ↔
        ∃ t, t ∈ (recipePatchView (.user 1) c3recipe.id c3patch
            c3db).2.tagStore.attrs ∧
          t.id = i ∧ t.user = 1 ∧ t.name ∈ ["Lunch"]) ∧
      (∀ i, i ∈ r'.ingredientIds ↔
        ∃ g, g ∈ (recipePatchView (.user 1) c3recipe.id c3patch
            c3db).2.ingredientStore.attrs ∧
          g.id = i ∧ g.user = 1 ∧ g.name ∈ ([] : List String)) ∧
      ((["Lunch"] : List String) = [] → r'.tagIds = []) ∧
      (([] : List String) = [] → r'.ingredientIds = []) :=
  claim3_assignment_replacement 1 c3patch c3db c3recipe ["Lunch"] []
    (by decide) (by decide) (by decide) (by decide) (by decide) (by decide)
    (by decide)

end RecipeApp
